import Mathlib

/-!
Verification of the vi-paths reconciliation engine (vi-paths.go).

The Go program derives filesystem instructions (rename / remove / copy) from
an equal-length pair of path listings: the original listing and the listing
after the user edited it.  This file gives a shallow embedding of the
program: pure Go functions become Lean functions on `String` / `List String`,
the in-place joint sort of the two slices becomes explicit state passing
(the sorted slices are returned), and the filesystem / editor-session side
effects are modelled by response oracles together with an explicit trace of
the operations the code performs.
-/

namespace ViPaths

/-- Whitespace test matching Go's `unicode.IsSpace` (the characters of the
Unicode White_Space property: tab through carriage return, space, NEL,
no-break space, ogham space mark, the general punctuation spaces, line and
paragraph separators, narrow no-break space, medium mathematical space and
ideographic space).  Used by `strings.TrimSpace`. -/
def isSpace (c : Char) : Bool :=
  (9 ≤ c.toNat && c.toNat ≤ 13) || c.toNat == 32 || c.toNat == 0x85 || c.toNat == 0xA0 ||
    c.toNat == 0x1680 || (0x2000 ≤ c.toNat && c.toNat ≤ 0x200A) ||
    c.toNat == 0x2028 || c.toNat == 0x2029 || c.toNat == 0x202F ||
    c.toNat == 0x205F || c.toNat == 0x3000

/-- Model of Go's `strings.TrimSpace`: drop whitespace from both ends. -/
def trimSpace (s : String) : String :=
  String.mk (((s.data.dropWhile isSpace).reverse.dropWhile isSpace).reverse)

/-- Character-list version of Go's `strings.HasPrefix` (first argument is
the candidate prefix, second the string searched). -/
def listIsPre : List Char → List Char → Bool
  | [], _ => true
  | _ :: _, [] => false
  | p :: ps, c :: cs => p == c && listIsPre ps cs

/-- Model of Go's `strings.HasPrefix s pre`. -/
def strHasPre (s pre : String) : Bool :=
  listIsPre pre.data s.data

/-- Model of Go's `strings.TrimPrefix s pre`: remove `pre` from the front
of `s` when it is a prefix, otherwise return `s` unchanged. -/
def strTrimPre (s pre : String) : String :=
  if strHasPre s pre then String.mk (s.data.drop pre.data.length) else s

/-- Depth of a path, from `parseInstructions`:
`strings.Count(path, string(filepath.Separator))`, i.e. the number of
path-separator characters in the (untrimmed) string; the separator is the
slash on the target platform. -/
def depth (path : String) : Nat :=
  path.data.countP (fun c => c == '/')

/-- The three instruction variants of vi-paths.go: the Go structs
`rename{before, after}`, `remove{name}` and `copy{from, to}` behind the
`instruction` interface (the `from` field is spelled `from_` and `to` is
spelled `to_` because `from` is a Lean keyword). -/
inductive instruction
  | rename (before after : String)
  | remove (name : String)
  | copy (from_ to_ : String)
deriving DecidableEq, Repr

/-- The command word recognised in an edited line (`const cmdCopy = "copy"`
in the source). -/
def cmdCopy : String := "copy"

/-- The classification switch in the body of `parseInstructions`, applied
to one before/after pair: both strings are trimmed, then in order of
precedence a trimmed after-line starting with the literal `copy` plus a
space yields a Copy (whose destination strips the `copy` prefix and is
trimmed again), an empty trimmed after-line yields a Remove, a trimmed
after-line different from the trimmed before-line yields a Rename, and an
identical line yields nothing. -/
def classifyPair (p : String × String) : Option instruction :=
  let before := trimSpace p.1
  let after := trimSpace p.2
  if strHasPre after (cmdCopy ++ " ") then
    some (instruction.copy before (trimSpace (strTrimPre after cmdCopy)))
  else if after = "" then
    some (instruction.remove before)
  else if after ≠ before then
    some (instruction.rename before after)
  else
    none

/-- Sort key order used by `parseInstructions`: the Go comparator is
`less a b = depth a > depth b`; the corresponding total preorder used by a
stable sort is `depthGE a b ↔ ¬ less b a ↔ depth b.1 ≤ depth a.1`
(descending depth of the before component). -/
def depthGE (a b : String × String) : Prop :=
  depth b.1 ≤ depth a.1

instance : DecidableRel depthGE := fun a b => Nat.decLe (depth b.1) (depth a.1)

instance : IsTotal (String × String) depthGE :=
  ⟨fun a b => Nat.le_total (depth b.1) (depth a.1)⟩

instance : IsTrans (String × String) depthGE :=
  ⟨fun _ _ _ hab hbc => Nat.le_trans hbc hab⟩

/-- The joint stable sort of `parseInstructions`, acting on the zipped
pairs.  The Go code calls `multiSortStable(before, [][]string{after}, less)`,
that is `sort.Stable` with `Less i j = depth before[i] > depth before[j]`
and a `Swap` that swaps `before` and `after` at the same indices; a stable
sort applying an identical permutation to two parallel equal-length slices
is the same as stably sorting the zipped list by the key of the first
component, which is rendered here by insertion sort (the canonical stable
sort, with the contract `sort.Stable` documents). -/
def sortPairs (before after : List String) : List (String × String) :=
  (before.zip after).insertionSort depthGE

/-- The pair of permuted slices that `multiSortStable` leaves in the
caller's arrays: the in-place mutation made explicit as a return value. -/
def multiSortStable (before after : List String) : List String × List String :=
  ((sortPairs before after).map Prod.fst, (sortPairs before after).map Prod.snd)

/-- Model of `parseInstructions`: jointly sort the pairs by descending
depth of the before path, classify each pair in order, collect the emitted
instructions.  The Go function's error result is always `nil`, so the
embedding always returns `Except.ok`. -/
def parseInstructions (before after : List String) : Except String (List instruction) :=
  Except.ok ((sortPairs before after).filterMap classifyPair)

/-- Observation used to state ordering claims: each emitted instruction
tagged with the depth of the (untrimmed) before path of the pair it came
from. -/
def instrWithDepth (before after : List String) : List (Nat × instruction) :=
  (sortPairs before after).filterMap
    (fun p => (classifyPair p).map (fun i => (depth p.1, i)))

example : parseInstructions (["a", "a/x"]) ([""] ++ ["copy a/y"]) =
    Except.ok ([instruction.copy ("a/x") ("a/y"), instruction.remove ("a")]) := by
  rfl

/-! Lexical path manipulation: `filepath.Clean` and `filepath.Dir` on the
slash-separated platform, used by the instruction apply methods. -/

/-- Split a character list at slashes (the behaviour of splitting a string
on the separator: an empty input gives one empty segment, and leading,
trailing or doubled slashes give empty segments). -/
def splitSlash : List Char → List Char → List String
  | [], acc => [String.mk acc.reverse]
  | c :: rest, acc =>
    if c == '/' then String.mk acc.reverse :: splitSlash rest []
    else splitSlash rest (c :: acc)

/-- Segment loop of Go's `filepath.Clean`: drop empty and dot segments,
resolve a dotdot segment by popping the previous real segment, keeping it
when there is nothing to pop in a relative path and dropping it at the
root of a rooted path. -/
def cleanSegs (rooted : Bool) : List String → List String → List String
  | [], acc => acc.reverse
  | s :: rest, acc =>
    if s = "" ∨ s = "." then cleanSegs rooted rest acc
    else if s = ".." then
      match acc with
      | [] => if rooted then cleanSegs rooted rest [] else cleanSegs rooted rest [s]
      | t :: ts =>
        if t = ".." then cleanSegs rooted rest (s :: t :: ts)
        else cleanSegs rooted rest ts
    else cleanSegs rooted rest (s :: acc)

/-- Model of Go's `filepath.Clean` for slash-separated paths: the shortest
lexically equivalent path (empty input becomes a dot, a rooted path keeps
its leading slash, a path whose segments all cancel becomes a dot). -/
def cleanPath (path : String) : String :=
  if path = "" then "."
  else
    let rooted := strHasPre path ("/")
    let segs := cleanSegs rooted (splitSlash path.data []) []
    if rooted then "/" ++ String.intercalate ("/") segs
    else if segs = [] then "." else String.intercalate ("/") segs

/-- Model of Go's `filepath.Dir`: everything up to and including the final
slash, then cleaned; a path without a slash has directory dot. -/
def dirPath (path : String) : String :=
  let cs := path.data
  let afterLast := (cs.reverse.takeWhile (fun c => !(c == '/'))).length
  cleanPath (String.mk (cs.take (cs.length - afterLast)))

example : dirPath ("a/b") = "a" := by rfl
example : dirPath ("a") = "." := by rfl
example : dirPath ("/a") = "/" := by rfl
example : dirPath ("a/b/") = "a/b" := by rfl
example : cleanPath ("a//b/./../c") = "a/c" := by rfl

/-! Filesystem model.  The instruction `Execute` methods call the
operating system (`os.Stat`, `os.MkdirAll`, `os.Rename`, `os.RemoveAll`,
`os.ReadFile`, `os.WriteFile`).  The embedding gives each call a response
from an oracle `Fs` and records the calls the code actually performs as an
explicit trace of `FsOp` events, so that claims about which operations run
(and in which order) are statable. -/

/-- The part of `os.Stat`'s result that the program consults: whether the
entry is a directory (`stat.IsDir()`) and its permission mode
(`stat.Mode()`). -/
structure StatInfo where
  isDir : Bool
  mode : Nat
deriving DecidableEq, Repr

/-- One filesystem call made by an instruction's apply method, with its
arguments. -/
inductive FsOp
  | stat (path : String)
  | mkdirAll (path : String) (mode : Nat)
  | rename (from_ to_ : String)
  | removeAll (path : String)
  | readFile (path : String)
  | writeFile (path : String) (content : List Nat) (mode : Nat)
deriving DecidableEq, Repr

/-- Oracle for the operating system's responses during a run: stat results,
file contents, and the error outcome (none meaning success) of each
mutating call.  In particular `removeAllErr` models `os.RemoveAll`, whose
contract is to succeed when the target is already absent. -/
structure Fs where
  statOf : String → Except String StatInfo
  mkdirAllErr : String → Nat → Option String
  renameErr : String → String → Option String
  removeAllErr : String → Option String
  readFileOf : String → Except String (List Nat)
  writeFileErr : String → List Nat → Nat → Option String

/-- The `Execute` methods of the three instruction variants, returning the
trace of attempted filesystem calls and the error result (`none` for a nil
error).  Rename ensures the destination's parent directories exist with
mode 0755 and then renames; Remove calls `os.RemoveAll`; Copy stats the
source and, for a directory, only re-creates the top directory node at the
destination with the source's mode, while for a non-directory it stats the
source's parent, creates the destination's parent directories with that
parent's mode, reads the whole source and writes it to the destination
with the source's mode.  Every error is wrapped with the sub-step name
exactly as the `fmt.Errorf` calls do. -/
def instruction.Execute : instruction → Fs → List FsOp × Option String
  | instruction.rename bef aft, fs =>
    match fs.mkdirAllErr (dirPath aft) 0o755 with
    | some e => ([FsOp.mkdirAll (dirPath aft) 0o755], some ("exe mkdirall: " ++ e))
    | none =>
      match fs.renameErr bef aft with
      | some e =>
          ([FsOp.mkdirAll (dirPath aft) 0o755, FsOp.rename bef aft], some ("exe rename: " ++ e))
      | none => ([FsOp.mkdirAll (dirPath aft) 0o755, FsOp.rename bef aft], none)
  | instruction.remove name, fs =>
    match fs.removeAllErr name with
    | some e => ([FsOp.removeAll name], some ("exe remove all: " ++ e))
    | none => ([FsOp.removeAll name], none)
  | instruction.copy f t, fs =>
    match fs.statOf f with
    | Except.error e => ([FsOp.stat f], some ("exe stat: " ++ e))
    | Except.ok st =>
      if st.isDir then
        match fs.mkdirAllErr t st.mode with
        | some e => ([FsOp.stat f, FsOp.mkdirAll t st.mode], some ("exe mkdirall: " ++ e))
        | none => ([FsOp.stat f, FsOp.mkdirAll t st.mode], none)
      else
        match fs.statOf (dirPath f) with
        | Except.error e => ([FsOp.stat f, FsOp.stat (dirPath f)], some ("exe stat: " ++ e))
        | Except.ok pst =>
          match fs.mkdirAllErr (dirPath t) pst.mode with
          | some e =>
              ([FsOp.stat f, FsOp.stat (dirPath f), FsOp.mkdirAll (dirPath t) pst.mode],
                some ("exe mkdirall: " ++ e))
          | none =>
            match fs.readFileOf f with
            | Except.error e =>
                ([FsOp.stat f, FsOp.stat (dirPath f), FsOp.mkdirAll (dirPath t) pst.mode,
                  FsOp.readFile f], some ("exe read: " ++ e))
            | Except.ok bs =>
              match fs.writeFileErr t bs st.mode with
              | some e =>
                  ([FsOp.stat f, FsOp.stat (dirPath f), FsOp.mkdirAll (dirPath t) pst.mode,
                    FsOp.readFile f, FsOp.writeFile t bs st.mode], some ("exe write: " ++ e))
              | none =>
                  ([FsOp.stat f, FsOp.stat (dirPath f), FsOp.mkdirAll (dirPath t) pst.mode,
                    FsOp.readFile f, FsOp.writeFile t bs st.mode], none)

/-! Editor-session model.  The collaborator boundary (`editPaths` plus the
temp-file creation in `run`) is pure orchestration over `os` and
`os/exec`; its outcomes are modelled by a `Session` oracle, and the steps
the code takes are recorded as `SessEv` events so their failures are
visible whether or not the code inspects them. -/

/-- One step of the editor session: a `WriteString` of one line to the
scratch buffer, the editor subprocess run, the `Seek` back to the start,
and the scanner pass that re-reads the buffer.  Each carries the
error the operating system reported for it (`none` for success). -/
inductive SessEv
  | write (content : String) (res : Option String)
  | runEditor (editor : String) (res : Option String)
  | seek (res : Option String)
  | scan (lines : List String) (res : Option String)
deriving DecidableEq, Repr

/-- Oracle for the editor session: the error outcome of creating the temp
file, of each buffered line write (keyed by the written content), of the
editor subprocess, of the seek, the lines the scanner yields, and the
scanner's terminal error. -/
structure Session where
  createErr : Option String
  writeErr : String → Option String
  runErr : Option String
  seekErr : Option String
  buffer : List String
  scanErr : Option String

/-- Model of `editPaths`: write each path plus a newline to the scratch
buffer with `WriteString` (the Go code discards `WriteString`'s result),
run the editor (this error is checked and wrapped), seek back to the start
(result discarded), and scan the buffer into lines (the scanner's error is
never consulted).  The event list records every step with its outcome;
the returned value depends only on the editor-run outcome and the scanned
lines. -/
def editPaths (sess : Session) (editor : String) (before : List String) :
    List SessEv × Except String (List String) :=
  let writes := before.map (fun name => SessEv.write (name ++ "\n") (sess.writeErr (name ++ "\n")))
  match sess.runErr with
  | some e =>
      (writes ++ [SessEv.runEditor editor (some e)],
        Except.error ("running \x22" ++ editor ++ "\x22: " ++ e))
  | none =>
      (writes ++ [SessEv.runEditor editor none, SessEv.seek sess.seekErr,
        SessEv.scan sess.buffer sess.scanErr],
        Except.ok sess.buffer)

/-- The instruction loop at the end of `run`: print each instruction (out
of scope), skip execution entirely under dry-run, otherwise apply the
instruction and stop at the first failing apply, wrapping its error. -/
def execLoop (fs : Fs) (dryRun : Bool) : List instruction → List FsOp × Except String Unit
  | [] => ([], Except.ok ())
  | i :: is =>
    if dryRun then execLoop fs dryRun is
    else
      match i.Execute fs with
      | (tr, some e) => (tr, Except.error ("executing: " ++ e))
      | (tr, none) =>
        let rest := execLoop fs dryRun is
        (tr ++ rest.1, rest.2)

/-- Everything observable about one call of `run`: the editor-session
events, the filesystem calls performed, the final content of the caller's
`before` slice (which `parseInstructions` permutes in place), and the
returned error. -/
structure RunOut where
  events : List SessEv
  ops : List FsOp
  beforeFinal : List String
  result : Except String Unit
deriving Repr

/-- Model of `run`: create the scratch file (failure is wrapped and
fatal), run the editor session, fail on a line-count mismatch before
deriving any instruction, otherwise derive the instructions (which sorts
the caller's slices in place) and execute them in order. -/
def run (sess : Session) (fs : Fs) (before : List String) (editor : String) (dryRun : Bool) :
    RunOut :=
  match sess.createErr with
  | some e => ⟨[], [], before, Except.error ("creating temp file: " ++ e)⟩
  | none =>
    let ed := editPaths sess editor before
    match ed.2 with
    | Except.error e => ⟨ed.1, [], before, Except.error ("editing paths: " ++ e)⟩
    | Except.ok after =>
      if after.length ≠ before.length then
        ⟨ed.1, [], before,
          Except.error ("line count mismatch: before " ++ toString before.length ++
            ", after " ++ toString after.length)⟩
      else
        match parseInstructions before after with
        | Except.error e =>
            ⟨ed.1, [], (multiSortStable before after).1,
              Except.error ("parse instructions: " ++ e)⟩
        | Except.ok instructions =>
          let r := execLoop fs dryRun instructions
          ⟨ed.1, r.1, (multiSortStable before after).1, r.2⟩

deriving instance DecidableEq for Except

/-! Helper lemmas shared by the claim theorems. -/

/-- A list zipped with itself is its own diagonal. -/
theorem zip_self_eq_map (l : List String) : l.zip l = l.map (fun x => (x, x)) := by
  induction l with
  | nil => rfl
  | cons x xs ih => simp [List.zip_cons_cons, ih]

/-- All-whitespace strings trim to the empty string. -/
theorem trimSpace_eq_empty_of_all (s : String) (h : s.data.all isSpace = true) :
    trimSpace s = "" := by
  unfold trimSpace
  have hd : s.data.dropWhile isSpace = [] :=
    List.dropWhile_eq_nil_iff.mpr (fun a ha => (List.all_eq_true.mp h) a ha)
  rw [hd]
  rfl

/-! Claim theorems. -/

/-- C2: for before = ["a", "a/x"] and after = ["", "copy a/y"], the joint
depth sort reorders the pairs to ["a/x", "a"] first, and reconcile returns
exactly [Copy (from "a/x") (to "a/y"), Remove "a"] in that order. -/
theorem depth_sorted_scenario :
    sortPairs (["a", "a/x"]) ([""] ++ ["copy a/y"]) =
        [(("a/x"), ("copy a/y")), (("a"), (""))] ∧
      parseInstructions (["a", "a/x"]) ([""] ++ ["copy a/y"]) =
        Except.ok ([instruction.copy ("a/x") ("a/y"), instruction.remove ("a")]) := by
  exact ⟨rfl, rfl⟩

/-- C3: a pair whose trimmed after string starts with the token copy
followed by a space is always classified as a Copy whose source is the
trimmed before string and whose destination is the trimmed remainder after
stripping the copy prefix, regardless of anything else (in particular even
when that destination equals the before string); and the instruction list
of reconcile is exactly the classification of the depth-sorted pairs, so
every such pair contributes exactly this Copy. -/
theorem copy_directive_classified :
    (∀ p : String × String, strHasPre (trimSpace p.2) (cmdCopy ++ " ") = true →
      classifyPair p = some (instruction.copy (trimSpace p.1)
        (trimSpace (strTrimPre (trimSpace p.2) cmdCopy))))
    ∧ ∀ before after : List String,
        parseInstructions before after =
          Except.ok ((sortPairs before after).filterMap classifyPair) := by
  constructor
  · intro p hp
    unfold classifyPair
    simp [hp]
  · intro b a
    rfl

/-- Witness for C3 at the pair ("a", "copy a"): the destination equals the
before string and the pair is still classified as a Copy, not a no-op. -/
theorem copy_directive_classified_witness :
    classifyPair ((("a"), ("copy a"))) =
      some (instruction.copy (trimSpace ("a"))
        (trimSpace (strTrimPre (trimSpace ("copy a")) cmdCopy))) :=
  copy_directive_classified.1 ((("a"), ("copy a"))) (by decide)

/-- C5: a pair whose after string is empty or consists only of whitespace
is always classified as a Remove of the trimmed before string (so never as
a Rename or a Copy), and the instruction list of reconcile is exactly the
classification of the depth-sorted pairs. -/
theorem empty_after_is_remove :
    (∀ p : String × String, p.2.data.all isSpace = true →
      classifyPair p = some (instruction.remove (trimSpace p.1)))
    ∧ ∀ before after : List String,
        parseInstructions before after =
          Except.ok ((sortPairs before after).filterMap classifyPair) := by
  constructor
  · intro p hp
    have h2 : trimSpace p.2 = "" := trimSpace_eq_empty_of_all p.2 hp
    unfold classifyPair
    rw [h2]
    rfl
  · intro b a
    rfl

/-- Witness for C5 at the pair (" x ", "  "): the whitespace-only after
line removes the trimmed before path. -/
theorem empty_after_is_remove_witness :
    classifyPair (((" x "), ("  "))) = some (instruction.remove (trimSpace (" x "))) :=
  empty_after_is_remove.1 (((" x "), ("  "))) (by decide)

/-- Counterexample to C4 as stated: an unchanged line is not always a
no-op.  An unchanged line whose text itself starts with the copy token is
classified as a Copy, and an unchanged whitespace-only line is classified
as a Remove, so reconcile on unchanged input can return a non-empty
instruction list. -/
theorem no_change_cex :
    parseInstructions (["copy b"]) (["copy b"]) =
        Except.ok ([instruction.copy ("copy b") ("b")]) ∧
      parseInstructions (["copy b"]) (["copy b"]) ≠ Except.ok ([]) ∧
      parseInstructions ([" "]) ([" "]) = Except.ok ([instruction.remove ("")]) ∧
      parseInstructions ([" "]) ([" "]) ≠ Except.ok ([]) := by
  refine ⟨rfl, ?_, rfl, ?_⟩ <;> decide

/-- C4 amended: for equal-length before/after sequences with no changed
line, reconcile returns an empty instruction list provided no before line
trims to the empty string and no before line's trimmed text starts with
the copy token followed by a space (those two kinds of unchanged line are
classified as Remove and Copy respectively, because classification
precedence tests the copy prefix and emptiness before comparing with the
before string). -/
theorem no_change_no_instructions :
    ∀ before after : List String, after = before →
      (∀ s ∈ before, ¬ trimSpace s = "" ∧
        strHasPre (trimSpace s) (cmdCopy ++ " ") = false) →
      parseInstructions before after = Except.ok ([]) := by
  intro b a ha hb
  subst ha
  unfold parseInstructions
  congr 1
  rw [List.filterMap_eq_nil_iff]
  intro p hp
  have hp' : p ∈ a.zip a := (List.perm_insertionSort depthGE _).mem_iff.mp hp
  rw [zip_self_eq_map] at hp'
  obtain ⟨x, hx, hxp⟩ := List.mem_map.mp hp'
  obtain ⟨h1, h2⟩ := hb x hx
  subst hxp
  unfold classifyPair
  simp [h1, h2]

/-- Witness for C4 (amended) at before = after = ["a/b", "c"]. -/
theorem no_change_no_instructions_witness :
    parseInstructions (["a/b", "c"]) (["a/b", "c"]) = Except.ok ([]) :=
  no_change_no_instructions (["a/b", "c"]) (["a/b", "c"]) rfl (by decide)

/-- Concrete session oracle for witnesses: no failures anywhere, scanner
yields two lines. -/
def sessTwo : Session :=
  ⟨none, fun _ => none, none, none, ["x", "y"], none⟩

/-- Concrete filesystem oracle for witnesses: every query fails, every
mutation succeeds (it is never consulted when no instructions run). -/
def fsNone : Fs :=
  ⟨fun _ => Except.error (""), fun _ _ => none, fun _ _ => none, fun _ => none,
    fun _ => Except.error (""), fun _ _ _ => none⟩

/-- C6: whenever the editor session hands back a line list whose length
differs from the before list, run fails with the line-count-mismatch error
and neither derives nor applies any instruction: no filesystem call is
made and the caller's before slice is left untouched (the joint sort
inside the classifier is never reached); and classification itself never
fails: parseInstructions returns a nil error on every pair of sequences. -/
theorem run_length_mismatch :
    (∀ (sess : Session) (fs : Fs) (before : List String) (editor : String) (dryRun : Bool),
      sess.createErr = none → sess.runErr = none → sess.buffer.length ≠ before.length →
        run sess fs before editor dryRun =
          ⟨(editPaths sess editor before).1, [], before,
            Except.error ("line count mismatch: before " ++ toString before.length ++
              ", after " ++ toString sess.buffer.length)⟩)
    ∧ ∀ before after : List String, ∃ l, parseInstructions before after = Except.ok l := by
  constructor
  · intro sess fs before editor dryRun hc hr hlen
    unfold run editPaths
    rw [hc, hr]
    simp [hlen]
  · intro b a
    exact ⟨_, rfl⟩

/-- Witness for C6: a three-line before list against a two-line edited
buffer fails with the mismatch error, performs no filesystem call and
leaves the before slice as it was. -/
theorem run_length_mismatch_witness :
    run sessTwo fsNone (["a", "b", "c"]) ("vi") false =
      ⟨(editPaths sessTwo ("vi") (["a", "b", "c"])).1, [], ["a", "b", "c"],
        Except.error ("line count mismatch: before " ++ toString (["a", "b", "c"].length) ++
          ", after " ++ toString sessTwo.buffer.length)⟩ :=
  run_length_mismatch.1 sessTwo fsNone (["a", "b", "c"]) ("vi") false rfl rfl (by decide)

/-- Unfolding lemma: a failing head instruction stops the loop with the
wrapped error. -/
theorem execLoop_cons_err (fs : Fs) (i : instruction) (l : List instruction)
    (tr : List FsOp) (e : String) (h : i.Execute fs = (tr, some e)) :
    execLoop fs false (i :: l) = (tr, Except.error ("executing: " ++ e)) := by
  rw [execLoop, if_neg (by simp), h]

/-- Unfolding lemma: a successful head instruction contributes its trace
and the loop continues. -/
theorem execLoop_cons_ok (fs : Fs) (i : instruction) (l : List instruction)
    (tr : List FsOp) (h : i.Execute fs = (tr, none)) :
    execLoop fs false (i :: l) =
      (tr ++ (execLoop fs false l).1, (execLoop fs false l).2) := by
  rw [execLoop, if_neg (by simp), h]

/-- C7: if the apply of the instruction at index k fails while all earlier
applies succeed, the run's instruction loop stops right there: its result
is the wrapped error of instruction k, the filesystem trace consists of
exactly the calls of instructions 0..k in order (the effects of the first
k instructions stay in place, nothing is compensated), and the loop's
outcome is the same as if the instructions after index k did not exist —
they are never attempted. -/
theorem first_failure_aborts :
    ∀ (fs : Fs) (is : List instruction) (k : Nat) (hk : k < is.length) (e : String),
      (∀ j (hj : j < k), ((is.get ⟨j, Nat.lt_trans hj hk⟩).Execute fs).2 = none) →
      ((is.get ⟨k, hk⟩).Execute fs).2 = some e →
      execLoop fs false is =
        (((is.take k).map (fun i => (i.Execute fs).1)).flatten ++
            ((is.get ⟨k, hk⟩).Execute fs).1,
          Except.error ("executing: " ++ e))
      ∧ execLoop fs false is = execLoop fs false (is.take (k + 1)) := by
  intro fs is
  induction is with
  | nil => intro k hk e _ _; exact absurd hk (Nat.not_lt_zero k)
  | cons i tl ih =>
    intro k hk e hpre hfail
    match k with
    | 0 =>
      have hfail0 : (i.Execute fs).2 = some e := hfail
      have h1 : i.Execute fs = ((i.Execute fs).1, some e) := by
        rw [← hfail0]
      constructor
      · rw [execLoop_cons_err fs i tl ((i.Execute fs).1) e h1]
        simp only [List.take_zero, List.map_nil, List.flatten_nil, List.nil_append]
        rfl
      · show execLoop fs false (i :: tl) = execLoop fs false (i :: List.take 0 tl)
        rw [execLoop_cons_err fs i tl ((i.Execute fs).1) e h1,
          execLoop_cons_err fs i (List.take 0 tl) ((i.Execute fs).1) e h1]
    | k + 1 =>
      have h0 : (i.Execute fs).2 = none := hpre 0 (Nat.succ_pos k)
      have h1 : i.Execute fs = ((i.Execute fs).1, none) := by
        rw [← h0]
      have hk' : k < tl.length := Nat.lt_of_succ_lt_succ hk
      have ihk := ih k hk' e
        (fun j hj => hpre (j + 1) (Nat.succ_lt_succ hj))
        hfail
      constructor
      · rw [execLoop_cons_ok fs i tl ((i.Execute fs).1) h1, ihk.1]
        show _ = ((List.map (fun i => (i.Execute fs).1) (i :: List.take k tl)).flatten ++ _,
          Except.error ("executing: " ++ e))
        simp [List.append_assoc]
      · show execLoop fs false (i :: tl) = execLoop fs false (i :: List.take (k + 1) tl)
        rw [execLoop_cons_ok fs i tl ((i.Execute fs).1) h1,
          execLoop_cons_ok fs i (List.take (k + 1) tl) ((i.Execute fs).1) h1,
          ihk.2]

/-- Concrete filesystem oracle for the C7 witness: removing the path bad
is denied, every other remove succeeds. -/
def fsDenyBad : Fs :=
  ⟨fun _ => Except.error (""), fun _ _ => none, fun _ _ => none,
    fun n => if n = "bad" then some ("denied") else none,
    fun _ => Except.error (""), fun _ _ _ => none⟩

/-- Witness for C7: with [Remove "ok", Remove "bad", Remove "never"], the
first remove succeeds, the second fails, the loop stops after the second
(the third is never attempted) and the trace keeps the first remove. -/
theorem first_failure_aborts_witness :
    execLoop fsDenyBad false
        [instruction.remove ("ok"), instruction.remove ("bad"), instruction.remove ("never")] =
      ((([instruction.remove ("ok")].map
            (fun i => (i.Execute fsDenyBad).1)).flatten ++
          ((instruction.remove ("bad")).Execute fsDenyBad).1),
        Except.error ("executing: " ++ "exe remove all: denied")) :=
  (first_failure_aborts fsDenyBad
    [instruction.remove ("ok"), instruction.remove ("bad"), instruction.remove ("never")]
    1 (by decide) ("exe remove all: denied")
    (fun j hj =>
      match j, hj with
      | 0, _ => rfl)
    rfl).1

/-- C8: applying a Copy whose source stats as a directory performs exactly
two filesystem calls — the stat and one recursive directory creation of
the destination with the source's permission mode — and, when that
creation succeeds, returns success having copied nothing else (shallow
copy: no read, no write, no call touching the directory's contents); and
conversely the file-content branch (a read of the source or a write of the
destination) runs only when the source stats as a non-directory. -/
theorem copy_of_directory_shallow :
    ∀ (f t : String) (fs : Fs),
      (∀ st : StatInfo, fs.statOf f = Except.ok st → st.isDir = true →
        ((instruction.copy f t).Execute fs).1 = [FsOp.stat f, FsOp.mkdirAll t st.mode] ∧
        (fs.mkdirAllErr t st.mode = none →
          (instruction.copy f t).Execute fs = ([FsOp.stat f, FsOp.mkdirAll t st.mode], none)))
      ∧ (∀ p : String,
          ((FsOp.readFile p ∈ ((instruction.copy f t).Execute fs).1) ∨
            (∃ bs m, FsOp.writeFile p bs m ∈ ((instruction.copy f t).Execute fs).1)) →
          ∃ st : StatInfo, fs.statOf f = Except.ok st ∧ st.isDir = false) := by
  intro f t fs
  constructor
  · intro st hst hdir
    cases hmk : fs.mkdirAllErr t st.mode with
    | some e =>
      constructor
      · simp [instruction.Execute, hst, hdir, hmk]
      · intro hnone
        cases hnone
    | none =>
      constructor
      · simp [instruction.Execute, hst, hdir, hmk]
      · intro _
        simp [instruction.Execute, hst, hdir, hmk]
  · intro p hp
    cases hst : fs.statOf f with
    | error e =>
      rw [show (instruction.copy f t).Execute fs =
          ([FsOp.stat f], some ("exe stat: " ++ e)) by simp [instruction.Execute, hst]] at hp
      simp at hp
    | ok st =>
      cases hdir : st.isDir with
      | true =>
        cases hmk : fs.mkdirAllErr t st.mode with
        | some e =>
          rw [show (instruction.copy f t).Execute fs =
              ([FsOp.stat f, FsOp.mkdirAll t st.mode], some ("exe mkdirall: " ++ e)) by
            simp [instruction.Execute, hst, hdir, hmk]] at hp
          simp at hp
        | none =>
          rw [show (instruction.copy f t).Execute fs =
              ([FsOp.stat f, FsOp.mkdirAll t st.mode], none) by
            simp [instruction.Execute, hst, hdir, hmk]] at hp
          simp at hp
      | false => exact ⟨st, rfl, hdir⟩

/-- Concrete filesystem oracle for the C8 witness: the path d stats as a
directory with mode 0755, every mutation succeeds. -/
def fsDirD : Fs :=
  ⟨fun p => if p = "d" then Except.ok ⟨true, 0o755⟩ else Except.error (""),
    fun _ _ => none, fun _ _ => none, fun _ => none,
    fun _ => Except.error (""), fun _ _ _ => none⟩

/-- Witness for C8: copying the directory d to e stats d, creates e with
mode 0755 and succeeds without any further call. -/
theorem copy_of_directory_shallow_witness :
    (instruction.copy ("d") ("e")).Execute fsDirD =
      ([FsOp.stat ("d"), FsOp.mkdirAll ("e") (StatInfo.mk true 0o755).mode], none) :=
  (((copy_of_directory_shallow ("d") ("e") fsDirD).1 (StatInfo.mk true 0o755) rfl rfl).2) rfl

/-- Helper: under dry-run the instruction loop performs no filesystem call
and always succeeds. -/
theorem execLoop_dryRun (fs : Fs) : ∀ l : List instruction,
    execLoop fs true l = ([], Except.ok ()) := by
  intro l
  induction l with
  | nil => rfl
  | cons i tl ih =>
    rw [execLoop, if_pos rfl, ih]

/-- Counterexample to C9 as stated: the editor session does swallow
errors.  In a session where every buffered write of a path line fails
(disk full) and the scanner's re-read ends in an error, the modelled
editPaths still returns the scanned lines with a nil error — the event
trace records the two failures — and the whole run succeeds, so a failing
sub-step of the editor session is not propagated anywhere.  (In the
source, the results of tmp.WriteString and tmp.Seek are discarded and the
scanner's Err method is never called.) -/
theorem session_error_swallowed_cex :
    editPaths (Session.mk none (fun _ => some ("disk full")) none none (["a"])
        (some ("read failed"))) ("vi") (["a"]) =
      ([SessEv.write ("a\n") (some ("disk full")), SessEv.runEditor ("vi") none,
        SessEv.seek none,
        SessEv.scan (["a"]) (some ("read failed"))], Except.ok (["a"])) ∧
      (run (Session.mk none (fun _ => some ("disk full")) none none (["a"])
          (some ("read failed"))) fsNone (["a"]) ("vi") false).result = Except.ok () := by
  exact ⟨rfl, rfl⟩

/-- C9 amended: the errors the code checks are all propagated — a failure
creating the scratch file, a failure of the editor subprocess, and a
failure of any instruction's apply each reach run's caller wrapped with
their context, and apply errors always surface as an executing error of
some failing instruction — but the editor session's buffered writes, its
seek, and its scanner re-read have their errors silently discarded: the
run's result does not depend on them at all (in addition to the
already-absent Remove case, which lives in the modelled RemoveAll
semantics, not in the code). -/
theorem error_propagation_amended :
    ∀ (sess : Session) (fs : Fs) (before : List String) (editor : String) (dryRun : Bool),
      (∀ e, sess.createErr = some e →
        (run sess fs before editor dryRun).result =
          Except.error ("creating temp file: " ++ e)) ∧
      (∀ e, sess.createErr = none → sess.runErr = some e →
        (run sess fs before editor dryRun).result =
          Except.error ("editing paths: " ++ ("running \x22" ++ editor ++ "\x22: " ++ e))) ∧
      (∀ is : List instruction,
        (execLoop fs false is).2 = Except.ok () ∨
        ∃ e, (execLoop fs false is).2 = Except.error ("executing: " ++ e) ∧
          ∃ k, ∃ hk : k < is.length, ((is.get ⟨k, hk⟩).Execute fs).2 = some e) ∧
      (∀ sess' : Session, sess'.createErr = sess.createErr → sess'.runErr = sess.runErr →
        sess'.buffer = sess.buffer →
        (run sess' fs before editor dryRun).result = (run sess fs before editor dryRun).result) := by
  intro sess fs before editor dryRun
  refine ⟨?_, ?_, ?_, ?_⟩
  · intro e hc
    simp [run, hc]
  · intro e hc hr
    simp [run, editPaths, hc, hr]
  · intro is
    induction is with
    | nil => exact Or.inl rfl
    | cons i tl ih =>
      cases hE2 : (i.Execute fs).2 with
      | some e =>
        have hE : i.Execute fs = ((i.Execute fs).1, some e) := by rw [← hE2]
        refine Or.inr ⟨e, ?_, 0, Nat.succ_pos tl.length, hE2⟩
        rw [execLoop_cons_err fs i tl ((i.Execute fs).1) e hE]
      | none =>
        have hE : i.Execute fs = ((i.Execute fs).1, none) := by rw [← hE2]
        rw [execLoop_cons_ok fs i tl ((i.Execute fs).1) hE]
        cases ih with
        | inl h => exact Or.inl h
        | inr h =>
          obtain ⟨e, he, k, hk, hks⟩ := h
          exact Or.inr ⟨e, he, k + 1, Nat.succ_lt_succ hk, hks⟩
  · intro sess' h1 h2 h3
    cases hc : sess.createErr with
    | some e => simp [run, h1, hc]
    | none =>
      cases hr : sess.runErr with
      | some e => simp [run, editPaths, h1, h2, h3, hc, hr]
      | none =>
        simp only [run, editPaths, h1, h2, h3, hc, hr]
        split <;> rfl

/-- Witness for C9 (amended), instantiating the editor-failure clause: a
session whose editor subprocess exits with an error makes the whole run
fail with the wrapped message. -/
theorem error_propagation_amended_witness :
    (run (Session.mk none (fun _ => none) (some ("exit status 1")) none [] none)
        fsNone (["a"]) ("vi") false).result =
      Except.error ("editing paths: " ++ ("running \x22" ++ "vi" ++ "\x22: " ++ "exit status 1")) :=
  (error_propagation_amended
    (Session.mk none (fun _ => none) (some ("exit status 1")) none [] none)
    fsNone (["a"]) ("vi") false).2.1 ("exit status 1") rfl rfl

/-- Helper: zipping the two projections of a pair list back together gives
the pair list. -/
theorem zip_fst_snd (l : List (String × String)) :
    (l.map Prod.fst).zip (l.map Prod.snd) = l := by
  rw [List.zip_map']
  simp

/-- C10: parseInstructions reorders the caller's two slices in place.
After the classifier runs, the content of the before and after slices is
the joint depth-descending permutation (the same permutation applied to
both, so index correspondence survives, witnessed by their zip being
exactly the sorted pair list, a permutation of the original zip sorted by
non-increasing depth); the classifier's output is read off those permuted
slices; the permutation is visible in the caller's slice after run even
under dry-run, and under dry-run classification performs no filesystem
operation at all (the classifier touches nothing but the two slices: its
model consumes no filesystem or session oracle). -/
theorem joint_sort_in_place :
    ∀ before after : List String, before.length = after.length →
      ((multiSortStable before after).1.zip (multiSortStable before after).2 =
          sortPairs before after) ∧
      (sortPairs before after).Perm (before.zip after) ∧
      ((sortPairs before after).map (fun p => depth p.1)).Pairwise (fun x y => y ≤ x) ∧
      parseInstructions before after =
        Except.ok (((multiSortStable before after).1.zip
          (multiSortStable before after).2).filterMap classifyPair) ∧
      (∀ (sess : Session) (fs : Fs) (editor : String) (dryRun : Bool),
        sess.createErr = none → sess.runErr = none → sess.buffer = after →
          (run sess fs before editor dryRun).beforeFinal = (multiSortStable before after).1) ∧
      (∀ (sess : Session) (fs : Fs) (editor : String),
        sess.createErr = none → sess.runErr = none → sess.buffer = after →
          (run sess fs before editor true).ops = []) := by
  intro before after hlen
  have hzip : (multiSortStable before after).1.zip (multiSortStable before after).2 =
      sortPairs before after := zip_fst_snd (sortPairs before after)
  refine ⟨hzip, List.perm_insertionSort depthGE _, ?_, ?_, ?_, ?_⟩
  · exact List.pairwise_map.mpr (List.sorted_insertionSort depthGE (before.zip after))
  · rw [hzip]
    rfl
  · intro sess fs editor dryRun hc hr hbuf
    simp only [run, editPaths, hc, hr, hbuf]
    rw [if_neg (by rw [hlen]; simp)]
    rfl
  · intro sess fs editor hc hr hbuf
    simp only [run, editPaths, hc, hr, hbuf]
    rw [if_neg (by rw [hlen]; simp)]
    show (execLoop fs true _).1 = []
    rw [execLoop_dryRun]

/-- Witness for C10 at before = ["a", "b/c"], after = ["x", "y"]: the
deeper pair moves to the front of both slices, also under dry-run. -/
theorem joint_sort_in_place_witness :
    (run sessTwo fsNone (["a", "b/c"]) ("vi") true).beforeFinal =
      (multiSortStable (["a", "b/c"]) (["x", "y"])).1 :=
  (joint_sort_in_place (["a", "b/c"]) (["x", "y"]) rfl).2.2.2.2.1
    sessTwo fsNone ("vi") true rfl rfl rfl

/-- Helper: dropping the depth tags recovers the plain instruction list. -/
theorem tagged_map_snd (l : List (String × String)) :
    ((l.filterMap (fun p => (classifyPair p).map (fun i => (depth p.1, i)))).map Prod.snd) =
      l.filterMap classifyPair := by
  induction l with
  | nil => rfl
  | cons p ps ih =>
    cases hc : classifyPair p <;> simp [List.filterMap_cons, hc, ih]

/-- Helper: the depth tags of the emitted instructions form a sublist of
the depths of all sorted pairs. -/
theorem tagged_map_fst_sublist (l : List (String × String)) :
    List.Sublist
      ((l.filterMap (fun p => (classifyPair p).map (fun i => (depth p.1, i)))).map Prod.fst)
      (l.map (fun p => depth p.1)) := by
  induction l with
  | nil => exact List.Sublist.refl _
  | cons p ps ih =>
    cases hc : classifyPair p with
    | none =>
      simp only [List.filterMap_cons, hc, List.map_cons]
      exact ih.cons _
    | some i =>
      simp only [List.filterMap_cons, hc, Option.map_some', List.map_cons]
      exact ih.cons₂ _

/-- Helper, the stability property of the joint sort: the pairs whose
before path has a given depth appear in the sorted list exactly as they
appeared in the input. -/
theorem filter_sortPairs_eq (b a : List String) (d : Nat) :
    (sortPairs b a).filter (fun p => depth p.1 == d) =
      (b.zip a).filter (fun p => depth p.1 == d) := by
  have hsub : List.Sublist ((b.zip a).filter (fun p => depth p.1 == d)) (sortPairs b a) := by
    apply List.sublist_insertionSort
    · apply List.pairwise_of_forall_mem_list
      intro x hx y hy
      have hxd : depth x.1 = d := by simpa using (List.mem_filter.mp hx).2
      have hyd : depth y.1 = d := by simpa using (List.mem_filter.mp hy).2
      show depth y.1 ≤ depth x.1
      omega
    · exact List.filter_sublist _
  have hself : ((b.zip a).filter (fun p => depth p.1 == d)).filter (fun p => depth p.1 == d) =
      (b.zip a).filter (fun p => depth p.1 == d) :=
    List.filter_eq_self.mpr (fun x hx => (List.mem_filter.mp hx).2)
  have hsub2 : List.Sublist ((b.zip a).filter (fun p => depth p.1 == d))
      ((sortPairs b a).filter (fun p => depth p.1 == d)) := by
    have := List.Sublist.filter (fun p => depth p.1 == d) hsub
    rwa [hself] at this
  have hperm : List.Perm ((sortPairs b a).filter (fun p => depth p.1 == d))
      ((b.zip a).filter (fun p => depth p.1 == d)) :=
    (List.perm_insertionSort depthGE _).filter _
  exact (hsub2.eq_of_length hperm.length_eq.symm).symm

/-- Helper: filtering the tagged instructions by depth is the same as
classifying the pairs of that depth. -/
theorem tagged_filter_eq (l : List (String × String)) (d : Nat) :
    ((l.filterMap (fun p => (classifyPair p).map (fun i => (depth p.1, i)))).filter
        (fun q => q.1 == d)) =
      ((l.filter (fun p => depth p.1 == d)).filterMap
        (fun p => (classifyPair p).map (fun i => (depth p.1, i)))) := by
  induction l with
  | nil => rfl
  | cons p ps ih =>
    cases hc : classifyPair p with
    | none =>
      cases hd : (depth p.1 == d) <;>
        simp [List.filterMap_cons, List.filter_cons, hc, hd, ih]
    | some i =>
      cases hd : (depth p.1 == d) <;>
        simp [List.filterMap_cons, List.filter_cons, hc, hd, ih]

/-- C1: the instruction list of reconcile is ordered by non-increasing
depth of the (untrimmed) before path of the pair each instruction came
from — the depth-tagged reading of the output has non-increasing tags —
and the joint sort is stable: for every depth, the pairs carrying that
depth appear in the sorted list (and hence their instructions appear in
the output) in exactly their original relative input order. -/
theorem instructions_depth_ordered :
    ∀ before after : List String, before.length = after.length →
      parseInstructions before after =
          Except.ok ((instrWithDepth before after).map Prod.snd) ∧
      ((instrWithDepth before after).map Prod.fst).Pairwise (fun x y => y ≤ x) ∧
      (∀ d : Nat, (sortPairs before after).filter (fun p => depth p.1 == d) =
        (before.zip after).filter (fun p => depth p.1 == d)) ∧
      (∀ d : Nat, (instrWithDepth before after).filter (fun q => q.1 == d) =
        ((before.zip after).filter (fun p => depth p.1 == d)).filterMap
          (fun p => (classifyPair p).map (fun i => (depth p.1, i)))) := by
  intro before after hlen
  refine ⟨?_, ?_, ?_, ?_⟩
  · show Except.ok _ = _
    rw [instrWithDepth, tagged_map_snd]
  · have hs : (sortPairs before after).Pairwise depthGE :=
      List.sorted_insertionSort depthGE (before.zip after)
    have hmap : ((sortPairs before after).map (fun p => depth p.1)).Pairwise
        (fun x y => y ≤ x) := List.pairwise_map.mpr hs
    exact List.Pairwise.sublist (tagged_map_fst_sublist _) hmap
  · exact filter_sortPairs_eq before after
  · intro d
    rw [instrWithDepth, tagged_filter_eq, filter_sortPairs_eq]

/-- Witness for C1 at before = ["a", "b/c"], after = ["x", "y"]: the
instruction list with its depth tags. -/
theorem instructions_depth_ordered_witness :
    parseInstructions (["a", "b/c"]) (["x", "y"]) =
      Except.ok ((instrWithDepth (["a", "b/c"]) (["x", "y"])).map Prod.snd) :=
  (instructions_depth_ordered (["a", "b/c"]) (["x", "y"]) rfl).1

end ViPaths
